import Mathlib

/-!
Shallow embedding of the off-chain holder-resolution pipeline of
`src/programs/anchor-escrow/src/lib.rs` (functions `get_nftholders`,
`get_cm_creator_accounts`, `get_holder_token_accounts`,
`parse_token_amount`, `parse_owner`), together with theorems checking the
specification claims against it.

Modelling notes.
The source body of `get_nftholders` is a half-converted rayon
`for_each` closure: the outer loop is closed by the tokens on source line
131, and the bare `return` statements inside it (decode failure, failed
verification, exhausted retries, candidate parse failures) exit that
closure, i.e. they abandon the current metadata account and continue with
the next one. The embedding reproduces exactly that control flow.
External collaborators are modelled as follows: the remote ledger client
is an attempt-indexed adapter function passed in as a parameter; the borsh
metadata decoder and the generic token-account decoder are opaque, so each
scanned account carries the outcome of its decode; serde_json values are
an inductive `Json` tree; the `retry` crate combinator is embedded with
its documented semantics (one initial try plus one retry per delay yielded
by the iterator); `log::error!` calls and backoff sleeps are recorded in
an explicit event trace.
-/

namespace SolNft

/-- serde_json value tree, as consumed by `parse_token_amount` and
`parse_owner` through `ParsedAccount.parsed`. -/
inductive Json where
  | str (s : String)
  | num (n : Int)
  | bool (b : Bool)
  | null
  | obj (fields : List (String × Json))
  | arr (elems : List Json)

/-- Key lookup in an object field list (first match, as in a serde map). -/
def lookupKV : List (String × Json) → String → Option Json
  | [], _ => none
  | (k, v) :: rest, key => if k = key then some v else lookupKV rest key

/-- `serde_json::Value::get` with a string key: a field of an object,
`none` on any non-object. -/
def jsonGet (j : Json) (key : String) : Option Json :=
  match j with
  | .obj fields => lookupKV fields key
  | _ => none

/-- `serde_json::Value::as_str`: the payload of a string value, `none` on
any other variant (in particular on a JSON number). -/
def asStr : Json → Option String
  | .str s => some s
  | _ => none

/-- `str::parse::<u64>` on a character list: an optional leading plus
sign, then at least one digit, value below 2 ^ 64; anything else
(empty input, a minus sign, non-digits, overflow) is rejected. -/
def parseU64Chars (cs : List Char) : Option Nat :=
  let digits := match cs with
    | [] => []
    | c :: rest => if c = '+' then rest else c :: rest
  if digits.isEmpty then none
  else if digits.all Char.isDigit then
    let n := digits.foldl (fun a c => a * 10 + (c.toNat - 48)) 0
    if n < 2 ^ 64 then some n else none
  else none

/-- `str::parse::<u64>` on a Rust string. -/
def parseU64 (s : String) : Option Nat := parseU64Chars s.toList

/-- `solana_account_decoder::parse_account_data::ParsedAccount`: only the
`parsed` JSON document is consumed by this program. -/
structure ParsedAccount where
  parsed : Json

/-- Source lines 215 to 228: walk `info`, `tokenAmount`, `amount`, demand
a JSON string, and parse it as a u64; each missing step yields the
error message of the corresponding `ok_or` in the source. -/
def parse_token_amount (data : ParsedAccount) : Except String Nat :=
  match jsonGet data.parsed "info" with
  | none => .error "Invalid data account!"
  | some info =>
    match jsonGet info "tokenAmount" with
    | none => .error "Invalid token amount!"
    | some ta =>
      match jsonGet ta "amount" with
      | none => .error "Invalid token amount!"
      | some amt =>
        match asStr amt with
        | none => .error "Invalid token amount!"
        | some s =>
          match parseU64 s with
          | none => .error "invalid digit found in string"
          | some n => .ok n

/-- Source lines 230 to 241: walk `info`, `owner`, demand a JSON string. -/
def parse_owner (data : ParsedAccount) : Except String String :=
  match jsonGet data.parsed "info" with
  | none => .error "Invalid owner account!"
  | some info =>
    match jsonGet info "owner" with
    | none => .error "Invalid owner account!"
    | some ow =>
      match asStr ow with
      | none => .error "Invalid owner amount!"
      | some s => .ok s

/-- One creator entry of a metadata record (mpl token metadata layout:
32-byte address, 1-byte verified flag, 1-byte share). -/
structure Creator where
  address : String
  verified : Bool
  share : Nat
deriving DecidableEq

/-- The `data` field of a decoded metadata record; only `creators` is
consumed by `get_nftholders`. -/
structure MetadataData where
  creators : Option (List Creator)
deriving DecidableEq

/-- A decoded metadata record; only `mint` and `data.creators` are
consumed by `get_nftholders`. -/
structure Metadata where
  mint : String
  data : MetadataData
deriving DecidableEq

/-- Modelled from the spec: `first_creator_is_verified` is imported from
`crate::parse`, whose source is not among the provided files. Contract
from the spec: returns true iff the creator list is non-empty and the
first entry has its verified flag set (a missing creator vector counts
as empty). -/
def first_creator_is_verified : Option (List Creator) → Bool
  | some (c :: _) => c.verified
  | _ => false

/-- Source lines 13 to 19: the result record assembled per qualifying
token account. -/
structure Holder where
  owner_wallet : String
  associated_token_address : String
  mint_account : String
  metadata_account : String
deriving DecidableEq

/-- One candidate returned by the per-mint token scan: its address and
the outcome of the opaque `parse_account_data` decoder on its bytes. -/
structure TokenCandidate where
  address : String
  parseResult : Option ParsedAccount

/-- One account returned by the creator scan: its pubkey and the outcome
of the opaque borsh decode (`try_from_slice_unchecked`) of its bytes. -/
structure MetaAccount where
  pubkey : String
  decoded : Option Metadata

/-- Observable side effects of `get_nftholders`: the `error!` log calls of
the source, the calls to `get_holder_token_accounts` (one per retry
attempt, numbered from 1), and the backoff sleeps of the retry loop. -/
inductive Event where
  | logNoMetadata (pubkey : String)
  | logNoTokenAccounts (pubkey : String)
  | logNoData (address : String)
  | logNoAmount (address : String)
  | logNoOwner (address : String)
  | scanAttempt (mint : String) (attempt : Nat)
  | sleep (ms : Nat)
deriving DecidableEq

/-- The delay iterator `Exponential::from_millis_with_factor(base, factor)`
of the retry crate, yielding `n` delays: the base first, then the running
value multiplied by the factor after each yield. The factor 2.0 of the
source is exact on these magnitudes, so Nat arithmetic is faithful. -/
def exponentialDelays (base factor : Nat) : Nat → List Nat
  | 0 => []
  | n + 1 => base :: exponentialDelays (base * factor) factor n

/-- The delays consumed by the source call on line 75:
`Exponential::from_millis_with_factor(250, 2.0).take(3)`. -/
def retryDelays : List Nat := exponentialDelays 250 2 3

/-- The retry crate combinator `retry::retry`: run the operation once; on
failure, if a delay remains, sleep it and try again. Returns the result,
the number of tries made (the crate counts tries from 1), and the event
trace of attempts and sleeps. -/
def retryGo {α : Type} (mint : String) (op : Nat → Except Unit α) :
    List Nat → Nat → Except Unit α × Nat × List Event
  | [], t =>
    match op t with
    | .ok v => (.ok v, t, [.scanAttempt mint t])
    | .error e => (.error e, t, [.scanAttempt mint t])
  | d :: rest, t =>
    match op t with
    | .ok v => (.ok v, t, [.scanAttempt mint t])
    | .error _ =>
      let r := retryGo mint op rest (t + 1)
      (r.1, r.2.1, .scanAttempt mint t :: .sleep d :: r.2.2)

/-- The retry call of source lines 74 to 77, on the attempt-indexed
token-scan adapter for one mint. -/
def retryScan {α : Type} (mint : String) (op : Nat → Except Unit α) :
    Except Unit α × Nat × List Event :=
  retryGo mint op retryDelays 1

/-- Source lines 85 to 130, the inner loop over the token-account
candidates of one mint. A failed generic decode, amount parse, or (for a
balance-1 candidate) owner parse logs and exits the enclosing closure:
the remaining candidates of this mint are abandoned, holders already
pushed are kept. A candidate whose amount is not 1 is passed over. -/
def processCandidates (mint metaPk : String) :
    List TokenCandidate → List Holder × List Event
  | [] => ([], [])
  | c :: rest =>
    match c.parseResult with
    | none => ([], [.logNoData c.address])
    | some d =>
      match parse_token_amount d with
      | .error _ => ([], [.logNoAmount c.address])
      | .ok amount =>
        if amount = 1 then
          match parse_owner d with
          | .error _ => ([], [.logNoOwner c.address])
          | .ok owner =>
            let r := processCandidates mint metaPk rest
            (Holder.mk owner c.address mint metaPk :: r.1, r.2)
        else processCandidates mint metaPk rest

/-- Source lines 59 to 131, the body of the per-metadata-account closure:
borsh decode (log and skip on failure), first-creator verification
(silently skip on failure), retried token scan (log and skip the mint when
all attempts fail), then the candidate loop. -/
def processAccount (scan : String → Nat → Except Unit (List TokenCandidate))
    (ma : MetaAccount) : List Holder × List Event :=
  match ma.decoded with
  | none => ([], [.logNoMetadata ma.pubkey])
  | some md =>
    if first_creator_is_verified md.data.creators then
      let r := retryScan md.mint (scan md.mint)
      match r.1 with
      | .error _ => ([], r.2.2 ++ [.logNoTokenAccounts ma.pubkey])
      | .ok cands =>
        let pc := processCandidates md.mint ma.pubkey cands
        (pc.1, r.2.2 ++ pc.2)
    else ([], [])

/-- Source lines 42 to 134 after the creator scan: fold the closure over
the scanned metadata accounts in order, appending holders and events.
The creator-scan phase itself is embedded as `get_cm_creator_accounts`
below; its result list is the `accounts` parameter here. -/
def get_nftholders (scan : String → Nat → Except Unit (List TokenCandidate)) :
    List MetaAccount → List Holder × List Event
  | [] => ([], [])
  | ma :: rest =>
    let h := processAccount scan ma
    let t := get_nftholders scan rest
    (h.1 ++ t.1, h.2 ++ t.2)

/-! Observers of one candidate, derived from the embedded parsers; used to
state the claims. -/

/-- The balance of a candidate, when its decode and amount parse succeed. -/
def candAmount (c : TokenCandidate) : Option Nat :=
  match c.parseResult with
  | none => none
  | some d => (parse_token_amount d).toOption

/-- The owning wallet of a candidate, when its decode and owner parse
succeed. -/
def candOwner (c : TokenCandidate) : Option String :=
  match c.parseResult with
  | none => none
  | some d => (parse_owner d).toOption

/-- Whether an Except is a success. -/
def exceptOk {ε α : Type} : Except ε α → Bool
  | .ok _ => true
  | .error _ => false

/-- A candidate the inner loop traverses without exiting the closure: it
decodes, its amount parses, and when the amount is 1 its owner parses. -/
def candOk (c : TokenCandidate) : Bool :=
  match c.parseResult with
  | none => false
  | some d =>
    match parse_token_amount d with
    | .error _ => false
    | .ok n => if n = 1 then exceptOk (parse_owner d) else true

/-- The log event a failing candidate produces, `none` for a candidate the
loop traverses; mirrors the three failure exits of the inner loop. -/
def candFailEvent (c : TokenCandidate) : Option Event :=
  match c.parseResult with
  | none => some (.logNoData c.address)
  | some d =>
    match parse_token_amount d with
    | .error _ => some (.logNoAmount c.address)
    | .ok n =>
      if n = 1 then
        match parse_owner d with
        | .error _ => some (.logNoOwner c.address)
        | .ok _ => none
      else none

/-- The Holder the loop emits for a traversed candidate: one for each
balance-1 candidate, built from its owner and address and the enclosing
mint and metadata pubkey. -/
def emitHolder (mint metaPk : String) (c : TokenCandidate) : Option Holder :=
  if candAmount c = some 1 then
    match candOwner c with
    | none => none
    | some o => some (Holder.mk o c.address mint metaPk)
  else none

/-- Index of the first candidate that makes the inner loop exit the
closure (the list length when none does). -/
def stopIndex : List TokenCandidate → Nat
  | [] => 0
  | c :: rest => if candOk c then stopIndex rest + 1 else 0

/-- The sleep duration of a sleep event. -/
def sleepMs : Event → Option Nat
  | .sleep d => some d
  | _ => none

/-- Whether an event is a scan attempt for the given mint. -/
def isAttempt (mint : String) : Event → Bool
  | .scanAttempt m _ => m == mint
  | _ => false

/-! Embedding of the two query builders. The RPC client itself is an
external collaborator, so each builder is embedded as the query it sends:
target program plus `RpcProgramAccountsConfig`. -/

/-- A memcmp filter: byte offset and the base58 bytes compared there. -/
structure Memcmp where
  offset : Nat
  bytes : String
deriving DecidableEq

/-- `solana_client::rpc_filter::RpcFilterType`, the two variants used. -/
inductive RpcFilterType where
  | memcmp (m : Memcmp)
  | dataSize (n : Nat)
deriving DecidableEq

/-- Commitment levels of the solana RPC API. -/
inductive CommitmentLevel where
  | processed
  | confirmed
  | finalized
deriving DecidableEq

/-- The per-account part of the query config; only the commitment matters
to the claims (encoding is base64, data slice absent, in both builders). -/
structure RpcAccountInfoConfig where
  commitment : Option CommitmentLevel
deriving DecidableEq

/-- `RpcProgramAccountsConfig` as built by the source. -/
structure RpcProgramAccountsConfig where
  filters : Option (List RpcFilterType)
  account_config : RpcAccountInfoConfig
deriving DecidableEq

/-- A `get_program_accounts_with_config` call: target program and config. -/
structure Query where
  program : String
  config : RpcProgramAccountsConfig
deriving DecidableEq

/-- Fixed address of the token metadata program (external constant of the
metaplex crate, imported by the source). -/
def TOKEN_METADATA_PROGRAM_ID : String :=
  "metaqbxxUerdq28cj1RbAWkYQm3ybzjb6a8bt518x1s"

/-- Fixed address of the SPL token program (external constant imported by
the source). -/
def TOKEN_PROGRAM_ID : String :=
  "TokenkegQfeZyiNwAJbNbGKPFXCWuBvf9Ss623VQ5DA"

/-- Maximum name capacity of a metadata record (metaplex constant). -/
def MAX_NAME_LENGTH : Nat := 32

/-- Maximum uri capacity of a metadata record (metaplex constant). -/
def MAX_URI_LENGTH : Nat := 200

/-- Maximum symbol capacity of a metadata record (metaplex constant). -/
def MAX_SYMBOL_LENGTH : Nat := 10

/-- Source lines 137 to 183: reject a creator position above 4 fatally
(`error!` then `std::process::exit(1)`, embedded as `none`: the process
aborts and no query is issued); otherwise build the memcmp filter at the
statically computed offset of that creator slot and query the metadata
program at confirmed commitment. -/
def get_cm_creator_accounts (creator : String) (position : Nat) :
    Option Query :=
  if position > 4 then none
  else some
    { program := TOKEN_METADATA_PROGRAM_ID
      config :=
        { filters := some [RpcFilterType.memcmp
            { offset := 1 + 32 + 32 + 4 + MAX_NAME_LENGTH + 4 +
                MAX_URI_LENGTH + 4 + MAX_SYMBOL_LENGTH + 2 + 1 + 4 +
                position * (32 + 1 + 1)
              bytes := creator }]
          account_config := { commitment := some CommitmentLevel.confirmed } } }

/-- Source lines 186 to 213: query the token program for accounts whose
bytes start with the mint identity and whose data size is exactly 165,
at confirmed commitment. -/
def get_holder_token_accounts (mint_account : String) : Query :=
  { program := TOKEN_PROGRAM_ID
    config :=
      { filters := some [RpcFilterType.memcmp { offset := 0, bytes := mint_account },
          RpcFilterType.dataSize 165]
        account_config := { commitment := some CommitmentLevel.confirmed } } }

/-- The nested JSON path the amount parser walks, stated after the words
of the claim: the value at `info.tokenAmount.amount` when it is a JSON
string. Used to compare `parse_token_amount` against the claim. -/
def specAmountPath (data : ParsedAccount) : Option String :=
  (((jsonGet data.parsed "info").bind
      (fun info => jsonGet info "tokenAmount")).bind
    (fun ta => jsonGet ta "amount")).bind asStr

/-! Helper lemmas about the embedded pipeline. -/

theorem processCandidates_fst_eq (mint pk : String) (cs : List TokenCandidate) :
    (processCandidates mint pk cs).1
      = (cs.take (stopIndex cs)).filterMap (emitHolder mint pk) := by
  induction cs with
  | nil => rfl
  | cons c rest ih =>
    simp only [processCandidates, stopIndex]
    cases h1 : c.parseResult with
    | none =>
      simp [candOk, h1]
    | some d =>
      cases h2 : parse_token_amount d with
      | error e =>
        simp [candOk, h1, h2]
      | ok n =>
        by_cases hn : n = 1
        · subst hn
          cases h3 : parse_owner d with
          | error e =>
            simp [candOk, h1, h2, h3, exceptOk]
          | ok o =>
            simp [candOk, h1, h2, h3, exceptOk, emitHolder, candAmount,
              candOwner, Except.toOption, List.filterMap_cons, ih]
        · simp [candOk, h1, h2, hn, emitHolder, candAmount, Except.toOption,
            List.filterMap_cons, ih]

theorem processCandidates_of_all_ok (mint pk : String)
    (cs : List TokenCandidate) (h : ∀ c ∈ cs, candOk c = true) :
    processCandidates mint pk cs
      = (cs.filterMap (emitHolder mint pk), []) := by
  induction cs with
  | nil => rfl
  | cons c rest ih =>
    have hc : candOk c = true := h c (List.mem_cons_self c rest)
    have hrest : ∀ x ∈ rest, candOk x = true :=
      fun x hx => h x (List.mem_cons_of_mem c hx)
    simp only [processCandidates]
    unfold candOk at hc
    cases h1 : c.parseResult with
    | none => simp [h1] at hc
    | some d =>
      simp only [h1] at hc ⊢
      cases h2 : parse_token_amount d with
      | error e => simp [h2] at hc
      | ok n =>
        simp only [h2] at hc ⊢
        by_cases hn : n = 1
        · subst hn
          simp only [if_pos rfl] at hc ⊢
          cases h3 : parse_owner d with
          | error e => simp [h3, exceptOk] at hc
          | ok o =>
            simp [h3, emitHolder, candAmount, candOwner, Except.toOption,
              h1, h2, List.filterMap_cons, ih hrest]
        · simp [hn, emitHolder, candAmount, Except.toOption, h1, h2,
            List.filterMap_cons, ih hrest]

theorem processCandidates_fail_head (mint pk : String) (d : TokenCandidate)
    (post : List TokenCandidate) (ev : Event)
    (hd : candFailEvent d = some ev) :
    processCandidates mint pk (d :: post) = ([], [ev]) := by
  simp only [processCandidates]
  unfold candFailEvent at hd
  cases h1 : d.parseResult with
  | none =>
    simp only [h1, Option.some.injEq] at hd ⊢
    simp [hd]
  | some pd =>
    simp only [h1] at hd ⊢
    cases h2 : parse_token_amount pd with
    | error e =>
      simp only [h2, Option.some.injEq] at hd ⊢
      simp [hd]
    | ok n =>
      simp only [h2] at hd ⊢
      by_cases hn : n = 1
      · subst hn
        simp only [if_pos rfl] at hd ⊢
        cases h3 : parse_owner pd with
        | error e =>
          simp only [h3] at hd ⊢
          simp at hd
          simp [hd]
        | ok o => simp [h3] at hd
      · simp [hn] at hd

theorem processCandidates_fail_append (mint pk : String)
    (pre post : List TokenCandidate) (d : TokenCandidate) (ev : Event)
    (hpre : ∀ c ∈ pre, candOk c = true)
    (hd : candFailEvent d = some ev) :
    processCandidates mint pk (pre ++ d :: post)
      = ((processCandidates mint pk pre).1, [ev]) := by
  induction pre with
  | nil =>
    simpa [processCandidates] using processCandidates_fail_head mint pk d post ev hd
  | cons c rest ih =>
    have hc : candOk c = true := hpre c (List.mem_cons_self c rest)
    have hrest : ∀ x ∈ rest, candOk x = true :=
      fun x hx => hpre x (List.mem_cons_of_mem c hx)
    simp only [List.cons_append, processCandidates]
    unfold candOk at hc
    cases h1 : c.parseResult with
    | none => simp [h1] at hc
    | some pd =>
      simp only [h1] at hc ⊢
      cases h2 : parse_token_amount pd with
      | error e => simp [h2] at hc
      | ok n =>
        simp only [h2] at hc ⊢
        by_cases hn : n = 1
        · subst hn
          simp only [if_pos rfl] at hc ⊢
          cases h3 : parse_owner pd with
          | error e => simp [h3, exceptOk] at hc
          | ok o => simp [h3, ih hrest]
        · simp [hn, ih hrest]

theorem emitHolder_fields (mint pk : String) (c : TokenCandidate)
    (h : Holder) (he : emitHolder mint pk c = some h) :
    h.mint_account = mint ∧ h.metadata_account = pk := by
  unfold emitHolder at he
  by_cases h1 : candAmount c = some 1
  · rw [if_pos h1] at he
    cases h2 : candOwner c with
    | none =>
      simp only [h2] at he
      exact Option.noConfusion he
    | some o =>
      simp only [h2, Option.some.injEq] at he
      subst he
      exact ⟨rfl, rfl⟩
  · rw [if_neg h1] at he
    exact absurd he (by simp)

theorem processCandidates_mem_fields (mint pk : String)
    (cs : List TokenCandidate) (h : Holder)
    (hm : h ∈ (processCandidates mint pk cs).1) :
    h.mint_account = mint ∧ h.metadata_account = pk := by
  rw [processCandidates_fst_eq] at hm
  rcases List.mem_filterMap.mp hm with ⟨c, _, hc⟩
  exact emitHolder_fields mint pk c h hc

theorem retryGo_attempt_mem {α : Type} (mint : String)
    (op : Nat → Except Unit α) (delays : List Nat) (t : Nat) :
    Event.scanAttempt mint t ∈ (retryGo mint op delays t).2.2 := by
  cases delays with
  | nil =>
    simp only [retryGo]
    cases op t <;> simp
  | cons d rest =>
    simp only [retryGo]
    cases op t <;> simp

theorem retryGo_tries_le {α : Type} (mint : String)
    (op : Nat → Except Unit α) (delays : List Nat) (t : Nat) :
    (retryGo mint op delays t).2.1 ≤ t + delays.length := by
  induction delays generalizing t with
  | nil =>
    simp only [retryGo]
    cases op t <;> simp
  | cons d rest ih =>
    simp only [retryGo]
    cases op t with
    | ok v => simp
    | error e =>
      simp only [List.length_cons]
      have := ih (t + 1)
      omega

theorem retryGo_all_fail {α : Type} (mint : String)
    (op : Nat → Except Unit α) (hop : ∀ u, op u = .error ())
    (delays : List Nat) (t : Nat) :
    (retryGo mint op delays t).1 = .error ()
    ∧ (retryGo mint op delays t).2.1 = t + delays.length
    ∧ (retryGo mint op delays t).2.2.filterMap sleepMs = delays := by
  induction delays generalizing t with
  | nil =>
    simp [retryGo, hop t, sleepMs]
  | cons d rest ih =>
    have h := ih (t + 1)
    simp only [retryGo, hop t]
    refine ⟨h.1, ?_, ?_⟩
    · simp only [List.length_cons]
      omega
    · simp [List.filterMap_cons, sleepMs, h.2.2]

theorem get_nftholders_append
    (scan : String → Nat → Except Unit (List TokenCandidate))
    (l1 l2 : List MetaAccount) :
    get_nftholders scan (l1 ++ l2)
      = ((get_nftholders scan l1).1 ++ (get_nftholders scan l2).1,
         (get_nftholders scan l1).2 ++ (get_nftholders scan l2).2) := by
  induction l1 with
  | nil => simp [get_nftholders]
  | cons ma rest ih =>
    simp [get_nftholders, ih, List.append_assoc]

theorem get_nftholders_fst_flatMap
    (scan : String → Nat → Except Unit (List TokenCandidate))
    (accounts : List MetaAccount) :
    (get_nftholders scan accounts).1
      = accounts.flatMap (fun ma => (processAccount scan ma).1) := by
  induction accounts with
  | nil => rfl
  | cons ma rest ih => simp [get_nftholders, ih]

theorem processAccount_decode_fail
    (scan : String → Nat → Except Unit (List TokenCandidate))
    (ma : MetaAccount) (hd : ma.decoded = none) :
    processAccount scan ma = ([], [Event.logNoMetadata ma.pubkey]) := by
  simp [processAccount, hd]

theorem processAccount_unverified
    (scan : String → Nat → Except Unit (List TokenCandidate))
    (ma : MetaAccount) (md : Metadata) (hd : ma.decoded = some md)
    (hv : first_creator_is_verified md.data.creators = false) :
    processAccount scan ma = ([], []) := by
  simp [processAccount, hd, hv]

theorem processAccount_scan_ok
    (scan : String → Nat → Except Unit (List TokenCandidate))
    (ma : MetaAccount) (md : Metadata) (cands : List TokenCandidate)
    (hd : ma.decoded = some md)
    (hv : first_creator_is_verified md.data.creators = true)
    (hs : scan md.mint 1 = .ok cands) :
    processAccount scan ma
      = ((processCandidates md.mint ma.pubkey cands).1,
         Event.scanAttempt md.mint 1 :: (processCandidates md.mint ma.pubkey cands).2) := by
  simp [processAccount, hd, hv, retryScan, retryDelays, exponentialDelays,
    retryGo, hs]

theorem processAccount_scan_fail
    (scan : String → Nat → Except Unit (List TokenCandidate))
    (ma : MetaAccount) (md : Metadata)
    (hd : ma.decoded = some md)
    (hv : first_creator_is_verified md.data.creators = true)
    (hre : (retryScan md.mint (scan md.mint)).1 = .error ()) :
    processAccount scan ma
      = ([], (retryScan md.mint (scan md.mint)).2.2
          ++ [Event.logNoTokenAccounts ma.pubkey]) := by
  simp [processAccount, hd, hv, hre]

theorem candOk_owner (c : TokenCandidate) (hc : candOk c = true)
    (ha : candAmount c = some 1) : ∃ o, candOwner c = some o := by
  unfold candOk at hc
  unfold candAmount at ha
  unfold candOwner
  cases h1 : c.parseResult with
  | none => simp [h1] at hc
  | some d =>
    simp only [h1] at hc ha ⊢
    cases h2 : parse_token_amount d with
    | error e => simp [h2] at hc
    | ok n =>
      simp only [h2, Except.toOption, Option.some.injEq] at hc ha
      subst ha
      simp only [if_pos rfl] at hc
      cases h3 : parse_owner d with
      | error e => simp [h3, exceptOk] at hc
      | ok o => exact ⟨o, by simp [Except.toOption]⟩

theorem emit_length (mint pk : String) (cs : List TokenCandidate)
    (h : ∀ c ∈ cs, candOk c = true) :
    (cs.filterMap (emitHolder mint pk)).length
      = (cs.filter (fun c => candAmount c == some 1)).length := by
  induction cs with
  | nil => rfl
  | cons c rest ih =>
    have hc : candOk c = true := h c (List.mem_cons_self c rest)
    have hrest : ∀ x ∈ rest, candOk x = true :=
      fun x hx => h x (List.mem_cons_of_mem c hx)
    by_cases ha : candAmount c = some 1
    · rcases candOk_owner c hc ha with ⟨o, ho⟩
      simp [List.filterMap_cons, List.filter_cons, emitHolder, ha, ho,
        ih hrest]
    · simp [List.filterMap_cons, List.filter_cons, emitHolder, ha, ih hrest]

theorem candFailEvent_shape (c : TokenCandidate) (ev : Event)
    (h : candFailEvent c = some ev) :
    ev = Event.logNoData c.address ∨ ev = Event.logNoAmount c.address
      ∨ ev = Event.logNoOwner c.address := by
  unfold candFailEvent at h
  cases h1 : c.parseResult with
  | none =>
    simp only [h1, Option.some.injEq] at h
    exact Or.inl h.symm
  | some d =>
    simp only [h1] at h
    cases h2 : parse_token_amount d with
    | error e =>
      simp only [h2, Option.some.injEq] at h
      exact Or.inr (Or.inl h.symm)
    | ok n =>
      simp only [h2] at h
      by_cases hn : n = 1
      · subst hn
        simp only [if_pos rfl] at h
        cases h3 : parse_owner d with
        | error e =>
          simp only [h3] at h
          simp at h
          exact Or.inr (Or.inr h.symm)
        | ok o => simp [h3] at h
      · simp [hn] at h

theorem parseU64Chars_lt (cs : List Char) (n : Nat)
    (h : parseU64Chars cs = some n) : n < 2 ^ 64 := by
  simp only [parseU64Chars] at h
  split at h
  · exact Option.noConfusion h
  · split at h
    · split at h
      · simp only [Option.some.injEq] at h
        omega
      · exact Option.noConfusion h
    · exact Option.noConfusion h

theorem parseU64Chars_minus (rest : List Char) :
    parseU64Chars ('-' :: rest) = none := by
  simp [parseU64Chars]

/-! Concrete sample data used by counterexamples and witnesses. -/

/-- A token-account document with a string amount and string owner at the
expected paths. -/
def samplePA (amt ow : String) : ParsedAccount :=
  ⟨.obj [("info", .obj [("tokenAmount", .obj [("amount", .str amt)]),
    ("owner", .str ow)])]⟩

/-- A candidate that decodes to the expected document shape. -/
def sampleCand (addr amt ow : String) : TokenCandidate :=
  ⟨addr, some (samplePA amt ow)⟩

/-- A candidate whose generic decode fails. -/
def badCand (addr : String) : TokenCandidate := ⟨addr, none⟩

/-- A candidate whose amount is a JSON number instead of a string. -/
def numCand (addr : String) : TokenCandidate :=
  ⟨addr, some ⟨.obj [("info",
    .obj [("tokenAmount", .obj [("amount", .num 1)])])]⟩⟩

/-- A metadata record with one verified creator. -/
def sampleMeta (mint : String) : Metadata :=
  ⟨mint, ⟨some [⟨"CR", true, 100⟩]⟩⟩

/-- A metadata record with one unverified creator. -/
def unverifiedMeta (mint : String) : Metadata :=
  ⟨mint, ⟨some [⟨"CR", false, 100⟩]⟩⟩

/-- A scanned account that decodes to a verified metadata record. -/
def sampleMA (pk mint : String) : MetaAccount :=
  ⟨pk, some (sampleMeta mint)⟩

/-- A scanned account whose borsh decode fails. -/
def badMA (pk : String) : MetaAccount := ⟨pk, none⟩

/-- An adapter that always answers the same candidate list. -/
def constScan (cs : List TokenCandidate) :
    String → Nat → Except Unit (List TokenCandidate) :=
  fun _ _ => .ok cs

/-- An adapter that always fails with a transport error. -/
def failScan : String → Nat → Except Unit (List TokenCandidate) :=
  fun _ _ => .error ()

/-- An adapter that fails the first 3 calls and succeeds afterwards. -/
def fail3Scan : String → Nat → Except Unit (List TokenCandidate) :=
  fun _ t => if t ≤ 3 then .error () else .ok []

/-! Claim theorems. -/

/-- C1, counterexample: the claim says a Holder is emitted for exactly
those successfully parsed candidates whose balance equals 1. Here the
second candidate of a verified mint parses successfully with balance 1 and
owner W, yet the run emits no Holder at all, because the first candidate
fails its generic decode and the closure exit abandons the rest of the
mint. -/
theorem C1_counterexample :
    parse_token_amount (samplePA "1" "W") = Except.ok 1
    ∧ parse_owner (samplePA "1" "W") = Except.ok "W"
    ∧ (get_nftholders (constScan [badCand "A1", sampleCand "A2" "1" "W"])
        [sampleMA "P" "M"]).1 = [] := by
  exact ⟨rfl, rfl, rfl⟩

/-- C1 (amended): for a verified mint whose candidates all parse
successfully, the run emits one Holder per balance-1 candidate, built from
that candidate's owner, and no Holder for any other candidate; in
particular one balance-1 account among balance-0 accounts yields exactly
one Holder, and zero balance-1 accounts yield none. (The amendment
restricts the claim to candidate lists without parse failures: a failing
candidate makes the closure abandon the remaining candidates of its
mint, as the counterexample shows.) -/
theorem C1_holders_of_verified_mint
    (scan : String → Nat → Except Unit (List TokenCandidate))
    (ma : MetaAccount) (md : Metadata) (cands : List TokenCandidate)
    (hd : ma.decoded = some md)
    (hv : first_creator_is_verified md.data.creators = true)
    (hs : scan md.mint 1 = .ok cands)
    (hok : ∀ c ∈ cands, candOk c = true) :
    (processAccount scan ma).1
      = cands.filterMap (emitHolder md.mint ma.pubkey)
    ∧ (processAccount scan ma).1.length
      = (cands.filter (fun c => candAmount c == some 1)).length := by
  have h1 := processAccount_scan_ok scan ma md cands hd hv hs
  have h2 := processCandidates_of_all_ok md.mint ma.pubkey cands hok
  constructor
  · rw [h1, h2]
  · rw [h1, h2]
    exact emit_length md.mint ma.pubkey cands hok

/-- C1, witness: one balance-1 candidate and one balance-0 candidate
under a verified mint yield exactly one Holder, owned by the balance-1
account's owner. -/
theorem C1_holders_of_verified_mint_witness :
    (sampleMA "P" "M").decoded = some (sampleMeta "M")
    ∧ first_creator_is_verified (sampleMeta "M").data.creators = true
    ∧ constScan [sampleCand "A1" "1" "W", sampleCand "A2" "0" "V"]
        (sampleMeta "M").mint 1
        = .ok [sampleCand "A1" "1" "W", sampleCand "A2" "0" "V"]
    ∧ (∀ c ∈ [sampleCand "A1" "1" "W", sampleCand "A2" "0" "V"],
        candOk c = true)
    ∧ ((processAccount
          (constScan [sampleCand "A1" "1" "W", sampleCand "A2" "0" "V"])
          (sampleMA "P" "M")).1
        = [sampleCand "A1" "1" "W", sampleCand "A2" "0" "V"].filterMap
            (emitHolder (sampleMeta "M").mint (sampleMA "P" "M").pubkey)
      ∧ (processAccount
          (constScan [sampleCand "A1" "1" "W", sampleCand "A2" "0" "V"])
          (sampleMA "P" "M")).1.length
        = ([sampleCand "A1" "1" "W", sampleCand "A2" "0" "V"].filter
            (fun c => candAmount c == some 1)).length) :=
  ⟨rfl, rfl, rfl, by decide,
    C1_holders_of_verified_mint
      (constScan [sampleCand "A1" "1" "W", sampleCand "A2" "0" "V"])
      (sampleMA "P" "M") (sampleMeta "M")
      [sampleCand "A1" "1" "W", sampleCand "A2" "0" "V"]
      rfl rfl rfl (by decide)⟩

/-- C2: for a decoded metadata record, the token scan for its mint is
attempted iff the first-creator check passes; the check holds iff the
creator list is non-empty with a verified first entry; a failing record
produces no Holder and no log event, and the scan continues with the
remaining accounts unchanged. -/
theorem C2_verification_gate
    (scan : String → Nat → Except Unit (List TokenCandidate))
    (ma : MetaAccount) (md : Metadata) (rest : List MetaAccount)
    (hd : ma.decoded = some md) :
    (first_creator_is_verified md.data.creators = true ↔
      Event.scanAttempt md.mint 1 ∈ (processAccount scan ma).2)
    ∧ (first_creator_is_verified md.data.creators = true ↔
      ∃ c cs, md.data.creators = some (c :: cs) ∧ c.verified = true)
    ∧ (first_creator_is_verified md.data.creators = false →
      processAccount scan ma = ([], [])
      ∧ get_nftholders scan (ma :: rest) = get_nftholders scan rest) := by
  refine ⟨⟨fun hv => ?_, fun hmem => ?_⟩, ?_, fun hv => ?_⟩
  · simp only [processAccount, hd, if_pos hv]
    cases hr : (retryScan md.mint (scan md.mint)).1 with
    | error e =>
      simp only [hr]
      exact List.mem_append_left _ (retryGo_attempt_mem md.mint _ retryDelays 1)
    | ok cands =>
      simp only [hr]
      exact List.mem_append_left _ (retryGo_attempt_mem md.mint _ retryDelays 1)
  · by_contra hv
    rw [Bool.not_eq_true] at hv
    rw [processAccount_unverified scan ma md hd hv] at hmem
    simp at hmem
  · cases hcr : md.data.creators with
    | none => simp [first_creator_is_verified, hcr]
    | some l =>
      cases l with
      | nil => simp [first_creator_is_verified, hcr]
      | cons c cs => simp [first_creator_is_verified, hcr]
  · have hpa := processAccount_unverified scan ma md hd hv
    refine ⟨hpa, ?_⟩
    simp [get_nftholders, hpa]

/-- C2, witness: a record whose single creator is unverified is skipped
silently. -/
theorem C2_verification_gate_witness :
    (MetaAccount.mk "P2" (some (unverifiedMeta "M2"))).decoded
      = some (unverifiedMeta "M2")
    ∧ first_creator_is_verified (unverifiedMeta "M2").data.creators = false
    ∧ processAccount (constScan [])
        (MetaAccount.mk "P2" (some (unverifiedMeta "M2"))) = ([], []) :=
  ⟨rfl, rfl,
    ((C2_verification_gate (constScan [])
      (MetaAccount.mk "P2" (some (unverifiedMeta "M2")))
      (unverifiedMeta "M2") [] rfl).2.2 rfl).1⟩

/-- C3: an account whose borsh decode fails is logged and only it is
skipped: the holders of the remaining accounts (before and after it) are
exactly those of the scan without it. -/
theorem C3_decode_failure_local
    (scan : String → Nat → Except Unit (List TokenCandidate))
    (pre post : List MetaAccount) (bad : MetaAccount)
    (hbad : bad.decoded = none) :
    (get_nftholders scan (pre ++ bad :: post)).1
      = (get_nftholders scan pre).1 ++ (get_nftholders scan post).1
    ∧ Event.logNoMetadata bad.pubkey
        ∈ (get_nftholders scan (pre ++ bad :: post)).2 := by
  have hb := processAccount_decode_fail scan bad hbad
  have happ := get_nftholders_append scan pre (bad :: post)
  constructor
  · rw [happ]
    simp [get_nftholders, hb]
  · rw [happ]
    simp [get_nftholders, hb]

/-- C3, witness: with a verified account before and after the undecodable
one, both their Holders survive and the bad account is logged. -/
theorem C3_decode_failure_local_witness :
    (badMA "PB").decoded = none
    ∧ ((get_nftholders (constScan [sampleCand "A" "1" "W"])
          ([sampleMA "P1" "M1"] ++ badMA "PB" :: [sampleMA "P2" "M2"])).1
        = (get_nftholders (constScan [sampleCand "A" "1" "W"])
            [sampleMA "P1" "M1"]).1
          ++ (get_nftholders (constScan [sampleCand "A" "1" "W"])
              [sampleMA "P2" "M2"]).1
      ∧ Event.logNoMetadata (badMA "PB").pubkey
          ∈ (get_nftholders (constScan [sampleCand "A" "1" "W"])
              ([sampleMA "P1" "M1"] ++ badMA "PB" :: [sampleMA "P2" "M2"])).2) :=
  ⟨rfl, C3_decode_failure_local (constScan [sampleCand "A" "1" "W"])
    [sampleMA "P1" "M1"] [sampleMA "P2" "M2"] (badMA "PB") rfl⟩

/-- C4, counterexample: the claim says the resolver makes at most 3
attempts in total and, against an adapter failing the first 3 calls,
gives up after exactly 3 attempts. Against exactly that adapter the
embedded retry makes a 4th call and succeeds: the delay iterator yields 3
delays, giving one initial try plus 3 retries. -/
theorem C4_counterexample :
    exceptOk (retryScan "M" (fail3Scan "M")).1 = true
    ∧ (retryScan "M" (fail3Scan "M")).2.1 = 4
    ∧ ((retryScan "M" (fail3Scan "M")).2.2.filter (isAttempt "M")).length
        = 4 := by
  exact ⟨rfl, rfl, rfl⟩

/-- C4 (amended): the per-mint scan retries on transport failure with
exponential backoff of base 250ms and factor 2.0 (sleeps 250, 500,
1000ms), making at most 4 attempts in total (one initial try plus 3
retries); if all 4 fail, that mint alone is skipped with a logged error
and the scan continues with the remaining mints. -/
theorem C4_retry_backoff
    (scan : String → Nat → Except Unit (List TokenCandidate))
    (ma : MetaAccount) (md : Metadata) (rest : List MetaAccount)
    (hd : ma.decoded = some md)
    (hv : first_creator_is_verified md.data.creators = true)
    (hfail : ∀ t, scan md.mint t = .error ()) :
    (retryScan md.mint (scan md.mint)).2.1 = 4
    ∧ (retryScan md.mint (scan md.mint)).2.2.filterMap sleepMs
        = [250, 500, 1000]
    ∧ (∀ op : Nat → Except Unit (List TokenCandidate),
        (retryScan md.mint op).2.1 ≤ 4)
    ∧ (processAccount scan ma).1 = []
    ∧ Event.logNoTokenAccounts ma.pubkey ∈ (processAccount scan ma).2
    ∧ (get_nftholders scan (ma :: rest)).1 = (get_nftholders scan rest).1 := by
  have hall := retryGo_all_fail md.mint (scan md.mint) hfail retryDelays 1
  have hre : (retryScan md.mint (scan md.mint)).1 = .error () := hall.1
  have hpa := processAccount_scan_fail scan ma md hd hv hre
  refine ⟨hall.2.1, hall.2.2, fun op => ?_, ?_, ?_, ?_⟩
  · exact retryGo_tries_le md.mint op retryDelays 1
  · rw [hpa]
  · rw [hpa]
    simp
  · simp [get_nftholders, hpa]

/-- C4, witness: an always-failing adapter exhausts 4 attempts with
sleeps 250, 500, 1000; the mint is skipped with a log and a following
mint is unaffected. -/
theorem C4_retry_backoff_witness :
    (sampleMA "P4" "M4").decoded = some (sampleMeta "M4")
    ∧ first_creator_is_verified (sampleMeta "M4").data.creators = true
    ∧ (∀ t, failScan (sampleMeta "M4").mint t = .error ())
    ∧ ((retryScan (sampleMeta "M4").mint (failScan (sampleMeta "M4").mint)).2.1 = 4
      ∧ (retryScan (sampleMeta "M4").mint
          (failScan (sampleMeta "M4").mint)).2.2.filterMap sleepMs
          = [250, 500, 1000]
      ∧ (∀ op : Nat → Except Unit (List TokenCandidate),
          (retryScan (sampleMeta "M4").mint op).2.1 ≤ 4)
      ∧ (processAccount failScan (sampleMA "P4" "M4")).1 = []
      ∧ Event.logNoTokenAccounts (sampleMA "P4" "M4").pubkey
          ∈ (processAccount failScan (sampleMA "P4" "M4")).2
      ∧ (get_nftholders failScan (sampleMA "P4" "M4" :: [sampleMA "P5" "M5"])).1
          = (get_nftholders failScan [sampleMA "P5" "M5"]).1) :=
  ⟨rfl, rfl, fun _ => rfl,
    C4_retry_backoff failScan (sampleMA "P4" "M4") (sampleMeta "M4")
      [sampleMA "P5" "M5"] rfl rfl (fun _ => rfl)⟩

/-- C5, counterexample: the claim says a candidate whose parse fails is
the only one skipped and the mint's other candidates can still produce
Holders. Here the first candidate carries its amount as a JSON number, so
its amount parse fails; the second candidate is well-formed with balance
1, yet no Holder is produced for the mint. -/
theorem C5_counterexample :
    candOk (sampleCand "A2" "1" "W5") = true
    ∧ candAmount (sampleCand "A2" "1" "W5") = some 1
    ∧ (processCandidates "M5" "P5" [numCand "A1", sampleCand "A2" "1" "W5"]).1
        = []
    ∧ (processCandidates "M5" "P5" [numCand "A1", sampleCand "A2" "1" "W5"]).2
        = [Event.logNoAmount "A1"] := by
  exact ⟨rfl, rfl, rfl, rfl⟩

/-- C5 (amended): a candidate whose generic decode, amount parse, or (for
a balance-1 candidate) owner parse fails is logged with an event naming
that candidate and the failing field, and it makes the loop abandon the
remaining candidates of that mint; Holders of candidates before the
failure are kept, and the accounts of other mints are processed
unchanged. -/
theorem C5_candidate_failure (mint pk : String)
    (pre post : List TokenCandidate) (d : TokenCandidate) (ev : Event)
    (hpre : ∀ c ∈ pre, candOk c = true)
    (hd : candFailEvent d = some ev) :
    processCandidates mint pk (pre ++ d :: post)
      = ((processCandidates mint pk pre).1, [ev])
    ∧ (ev = Event.logNoData d.address ∨ ev = Event.logNoAmount d.address
        ∨ ev = Event.logNoOwner d.address)
    ∧ (∀ (scan : String → Nat → Except Unit (List TokenCandidate))
        (ma : MetaAccount) (rest : List MetaAccount),
        (get_nftholders scan (ma :: rest)).1
          = (processAccount scan ma).1 ++ (get_nftholders scan rest).1) :=
  ⟨processCandidates_fail_append mint pk pre post d ev hpre hd,
   candFailEvent_shape d ev hd,
   fun _ _ _ => rfl⟩

/-- C5, witness: a balance-0 candidate, then an undecodable candidate,
then a balance-1 candidate: the failure is logged for the middle one and
the trailing balance-1 candidate yields no Holder. -/
theorem C5_candidate_failure_witness :
    (∀ c ∈ [sampleCand "B1" "0" "V"], candOk c = true)
    ∧ candFailEvent (badCand "B2") = some (Event.logNoData "B2")
    ∧ (processCandidates "M5" "P5"
        ([sampleCand "B1" "0" "V"] ++ badCand "B2" :: [sampleCand "B3" "1" "W"])
        = ((processCandidates "M5" "P5" [sampleCand "B1" "0" "V"]).1,
           [Event.logNoData "B2"])
      ∧ (Event.logNoData "B2" = Event.logNoData (badCand "B2").address
          ∨ Event.logNoData "B2" = Event.logNoAmount (badCand "B2").address
          ∨ Event.logNoData "B2" = Event.logNoOwner (badCand "B2").address)
      ∧ (∀ (scan : String → Nat → Except Unit (List TokenCandidate))
          (ma : MetaAccount) (rest : List MetaAccount),
          (get_nftholders scan (ma :: rest)).1
            = (processAccount scan ma).1 ++ (get_nftholders scan rest).1)) :=
  ⟨by decide, rfl,
    C5_candidate_failure "M5" "P5" [sampleCand "B1" "0" "V"]
      [sampleCand "B3" "1" "W"] (badCand "B2") (Event.logNoData "B2")
      (by decide) rfl⟩

/-- C6: a creator-slot position above 4 aborts fatally before any query
is issued (embedded as no query value), while every position in 0..4
builds the filter and issues the query. -/
theorem C6_position_gate (creator : String) (p : Nat) :
    (4 < p → get_cm_creator_accounts creator p = none)
    ∧ (p ≤ 4 → ∃ q, get_cm_creator_accounts creator p = some q) := by
  constructor
  · intro h
    unfold get_cm_creator_accounts
    rw [if_pos h]
  · intro h
    unfold get_cm_creator_accounts
    rw [if_neg (by omega)]
    exact ⟨_, rfl⟩

/-- C6, witness: position 5 aborts with no query; position 0 queries. -/
theorem C6_position_gate_witness :
    get_cm_creator_accounts "C" 5 = none
    ∧ (∃ q, get_cm_creator_accounts "C" 0 = some q) :=
  ⟨(C6_position_gate "C" 5).1 (by decide),
   (C6_position_gate "C" 0).2 (by decide)⟩

/-- C7: for every position in 0..4 the memcmp offset is the fixed prefix
(discriminator, authority, mint, three length-prefixed strings of the
documented maximum capacities, fee basis points, creator-vector flag,
creator-vector length) plus the position times the 34-byte creator tuple,
and the compared bytes are the given creator identity. -/
theorem C7_creator_filter_offset (creator : String) (p : Nat) (hp : p ≤ 4) :
    get_cm_creator_accounts creator p = some
      { program := TOKEN_METADATA_PROGRAM_ID
        config :=
          { filters := some [RpcFilterType.memcmp
              { offset := 1 + 32 + 32 + (4 + MAX_NAME_LENGTH) +
                  (4 + MAX_URI_LENGTH) + (4 + MAX_SYMBOL_LENGTH) + 2 + 1 + 4 +
                  p * (32 + 1 + 1)
                bytes := creator }]
            account_config :=
              { commitment := some CommitmentLevel.confirmed } } } := by
  unfold get_cm_creator_accounts
  rw [if_neg (by omega)]
  rfl

/-- C7, witness: the filter for slot 3 compares the creator identity at
the prefix offset plus three creator tuples. -/
theorem C7_creator_filter_offset_witness :
    get_cm_creator_accounts "CR" 3 = some
      { program := TOKEN_METADATA_PROGRAM_ID
        config :=
          { filters := some [RpcFilterType.memcmp
              { offset := 1 + 32 + 32 + (4 + MAX_NAME_LENGTH) +
                  (4 + MAX_URI_LENGTH) + (4 + MAX_SYMBOL_LENGTH) + 2 + 1 + 4 +
                  3 * (32 + 1 + 1)
                bytes := "CR" }]
            account_config :=
              { commitment := some CommitmentLevel.confirmed } } } :=
  C7_creator_filter_offset "CR" 3 (by decide)

/-- C8: the holder scan queries the token program with exactly the two
ANDed predicates mint-at-offset-0 and data-size-165, at confirmed
commitment, and every issued creator-scan query is also at confirmed
commitment. -/
theorem C8_token_scan_query (mint : String) :
    (get_holder_token_accounts mint).program = TOKEN_PROGRAM_ID
    ∧ (get_holder_token_accounts mint).config.filters
        = some [RpcFilterType.memcmp { offset := 0, bytes := mint },
            RpcFilterType.dataSize 165]
    ∧ (get_holder_token_accounts mint).config.account_config.commitment
        = some CommitmentLevel.confirmed
    ∧ (∀ (creator : String) (p : Nat) (q : Query),
        get_cm_creator_accounts creator p = some q →
        q.config.account_config.commitment = some CommitmentLevel.confirmed) := by
  refine ⟨rfl, rfl, rfl, fun creator p q hq => ?_⟩
  unfold get_cm_creator_accounts at hq
  by_cases hp : 4 < p
  · rw [if_pos hp] at hq
    exact Option.noConfusion hq
  · rw [if_neg hp] at hq
    simp only [Option.some.injEq] at hq
    rw [← hq]

/-- C8, witness: both query builders request confirmed commitment at a
concrete mint, creator, and position. -/
theorem C8_token_scan_query_witness :
    (get_holder_token_accounts "M8").config.account_config.commitment
      = some CommitmentLevel.confirmed
    ∧ (∃ q, get_cm_creator_accounts "C8" 0 = some q
        ∧ q.config.account_config.commitment = some CommitmentLevel.confirmed) :=
  ⟨(C8_token_scan_query "M8").2.2.1,
   ⟨_, rfl, (C8_token_scan_query "M8").2.2.2 "C8" 0 _ rfl⟩⟩

/-- C9: the amount parser succeeds with n iff the document holds a JSON
string at info.tokenAmount.amount that parses as a u64 equal to n; a
non-string value at that path (a JSON number in particular) is an error;
a parsed value is below 2 ^ 64; a leading minus sign is rejected. -/
theorem C9_parse_token_amount_spec (pa : ParsedAccount) :
    (∀ n, parse_token_amount pa = Except.ok n ↔
      ∃ s, specAmountPath pa = some s ∧ parseU64 s = some n)
    ∧ (∀ j, ((jsonGet pa.parsed "info").bind
          (fun info => jsonGet info "tokenAmount")).bind
            (fun ta => jsonGet ta "amount") = some j → asStr j = none →
        ∃ e, parse_token_amount pa = Except.error e)
    ∧ (∀ s n, parseU64 s = some n → n < 2 ^ 64)
    ∧ (∀ rest, parseU64Chars ('-' :: rest) = none) := by
  refine ⟨fun n => ?_, fun j hj hstr => ?_, fun s n hp => parseU64Chars_lt _ _ hp,
    fun rest => parseU64Chars_minus rest⟩
  · unfold parse_token_amount specAmountPath
    cases h1 : jsonGet pa.parsed "info" with
    | none => simp [h1]
    | some info =>
      simp only [h1, Option.some_bind]
      cases h2 : jsonGet info "tokenAmount" with
      | none => simp [h2]
      | some ta =>
        simp only [h2, Option.some_bind]
        cases h3 : jsonGet ta "amount" with
        | none => simp [h3]
        | some amt =>
          simp only [h3, Option.some_bind]
          cases h4 : asStr amt with
          | none => simp [h4]
          | some s =>
            simp only [h4]
            cases h5 : parseU64 s with
            | none => simp [h5]
            | some m => simp [h5]
  · unfold parse_token_amount
    cases h1 : jsonGet pa.parsed "info" with
    | none => simp [h1] at hj
    | some info =>
      simp only [h1, Option.some_bind] at hj ⊢
      cases h2 : jsonGet info "tokenAmount" with
      | none => simp [h2] at hj
      | some ta =>
        simp only [h2, Option.some_bind] at hj ⊢
        cases h3 : jsonGet ta "amount" with
        | none => simp [h3] at hj
        | some amt =>
          simp only [h3, Option.some.injEq] at hj
          subst hj
          simp only [hstr]
          exact ⟨_, rfl⟩

/-- C9, witness: a string amount "7" parses to 7, and 7 is in u64
range. -/
theorem C9_parse_token_amount_spec_witness :
    parse_token_amount (samplePA "7" "W") = Except.ok 7 ∧ 7 < 2 ^ 64 :=
  ⟨((C9_parse_token_amount_spec (samplePA "7" "W")).1 7).mpr
      ⟨"7", rfl, by decide⟩,
   (C9_parse_token_amount_spec (samplePA "7" "W")).2.2.1 "7" 7 (by decide)⟩

/-- C10: the holder list is the in-order concatenation of the per-account
holder lists (holders of earlier metadata accounts precede those of later
ones); within one mint the holders follow the token-account order, taken
up to the first failing candidate; and every emitted Holder carries the
mint and the metadata pubkey of the record it was found under. -/
theorem C10_order_and_provenance
    (scan : String → Nat → Except Unit (List TokenCandidate))
    (accounts : List MetaAccount) :
    ((get_nftholders scan accounts).1
      = accounts.flatMap (fun ma => (processAccount scan ma).1))
    ∧ (∀ mint pk cands, (processCandidates mint pk cands).1
        = (cands.take (stopIndex cands)).filterMap (emitHolder mint pk))
    ∧ (∀ ma md, ma.decoded = some md →
        ∀ h, h ∈ (processAccount scan ma).1 →
          h.mint_account = md.mint ∧ h.metadata_account = ma.pubkey) := by
  refine ⟨get_nftholders_fst_flatMap scan accounts,
    fun mint pk cands => processCandidates_fst_eq mint pk cands, ?_⟩
  intro ma md hd h hm
  simp only [processAccount, hd] at hm
  by_cases hv : first_creator_is_verified md.data.creators
  · rw [if_pos hv] at hm
    cases hr : (retryScan md.mint (scan md.mint)).1 with
    | error e =>
      simp only [hr] at hm
      simp at hm
    | ok cands =>
      simp only [hr] at hm
      exact processCandidates_mem_fields md.mint ma.pubkey cands h hm
  · rw [if_neg hv] at hm
    simp at hm

/-- C10, witness: a single verified mint with a single balance-1 account
emits a Holder carrying that mint and that metadata pubkey. -/
theorem C10_order_and_provenance_witness :
    (sampleMA "P" "M").decoded = some (sampleMeta "M")
    ∧ Holder.mk "W" "A" "M" "P"
        ∈ (processAccount (constScan [sampleCand "A" "1" "W"])
            (sampleMA "P" "M")).1
    ∧ ((Holder.mk "W" "A" "M" "P").mint_account = (sampleMeta "M").mint
      ∧ (Holder.mk "W" "A" "M" "P").metadata_account
          = (sampleMA "P" "M").pubkey) :=
  ⟨rfl, by decide,
    (C10_order_and_provenance (constScan [sampleCand "A" "1" "W"])
      [sampleMA "P" "M"]).2.2 (sampleMA "P" "M") (sampleMeta "M") rfl
      (Holder.mk "W" "A" "M" "P") (by decide)⟩

end SolNft
